import Mathlib

/-!
# Verification of the Itinerary-planning trip planner core

Shallow embedding of the trip/day/location document model, the mutation
engine, the legacy migration rule, and the share codec of
`src/pages/index.tsx`, together with proofs of the specification claims.

Strings are Lean `String`s (sequences of Unicode scalar values); the
codec layer works on `List Char` / `List Nat` (bytes).  JavaScript's
`===` on strings is string equality; optional object fields
(`notes?: string`, absent `days` / `locations` on raw trips) are
`Option`.
-/

namespace Itinerary

/-- `interface Location` from `src/pages/index.tsx` (lines 3-9):
`{id, name, address, notes?, images}`. -/
structure Location where
  id : String
  name : String
  address : String
  notes : Option String
  images : List String
deriving DecidableEq, Repr

/-- `interface Day` (lines 11-15): `{id, name, locations}`. -/
structure Day where
  id : String
  name : String
  locations : List Location
deriving DecidableEq, Repr

/-- `interface Trip` (lines 17-22): `{id, name, days, createdAt}`. -/
structure Trip where
  id : String
  name : String
  days : List Day
  createdAt : Nat
deriving DecidableEq, Repr

/-- A raw trip as loaded from local storage, before migration: the
`days` field may be absent (legacy shape) and a legacy `locations`
field may be present. -/
structure RawTrip where
  id : String
  name : String
  days : Option (List Day)
  locations : Option (List Location)
  createdAt : Nat
deriving DecidableEq, Repr

/-- JavaScript `String.prototype.trim` whitespace (WhiteSpace and
LineTerminator code points). -/
def isJsWs (c : Char) : Bool :=
  c.toNat ∈ [0x9, 0xA, 0xB, 0xC, 0xD, 0x20, 0xA0, 0x1680,
    0x2000, 0x2001, 0x2002, 0x2003, 0x2004, 0x2005, 0x2006, 0x2007,
    0x2008, 0x2009, 0x200A, 0x2028, 0x2029, 0x202F, 0x205F, 0x3000, 0xFEFF]

/-- JavaScript `s.trim()`. -/
def jsTrim (s : String) : String :=
  ⟨((s.toList.dropWhile isJsWs).reverse.dropWhile isJsWs).reverse⟩

/-! ## Document model / migration

`index.tsx` lines 61-69, the inline `migrate` inside the load
`useEffect`.  `Date.now().toString()` (the fresh id for the
synthesized day) is a platform call; it is passed in as the opaque
parameter `freshId`.  `!trip.days` is falsy exactly when the field is
absent (or null), i.e. `none` here; a present array — even empty — is
truthy. -/
def migrate (freshId : String) (t : RawTrip) : RawTrip :=
  match t.days with
  | none =>
      { t with days := some [{ id := freshId, name := "Day 1",
                               locations := t.locations.getD [] }] }
  | some _ => t

/-! ## Mutation engine (single-trip operations)

Each React handler computes `updated` from `currentTrip` and commits it
with `setCurrentTrip updated` and
`setTrips (trips.map (t => t.id === updated.id ? updated : t))`.
The single-trip core of each handler is embedded first; the
state-pair form (standalone trip, collection) follows. -/

/-- `addDay` (lines 115-128), single-trip core: the guard
`!newDayName.trim()` makes an empty trimmed name a no-op; otherwise a
new day with a fresh id and no locations is appended. -/
def addDay (trip : Trip) (name : String) (freshId : String) : Trip :=
  if jsTrim name = "" then trip
  else { trip with days := trip.days ++ [{ id := freshId, name := name, locations := [] }] }

/-- The alert text of `deleteDay` (line 133). -/
def lastDayAlert : String := "至少需要保留一天"

/-- `deleteDay` (lines 130-142), single-trip core: refuses (alert,
state untouched) when `days.length <= 1`, else filters out the day
with the given id.  The first component is the alert message, if any. -/
def deleteDay (trip : Trip) (dayId : String) : Option String × Trip :=
  if trip.days.length ≤ 1 then (some lastDayAlert, trip)
  else (none, { trip with days := trip.days.filter (fun d => d.id ≠ dayId) })

/-- `addLocation` (lines 160-178), single-trip core: no-op when the
trimmed name or trimmed address is empty (`!name.trim() ||
!address.trim()`); otherwise appends a location with a fresh id to the
day whose id is `dayId` (the component's `activeDayId`). -/
def addLocation (trip : Trip) (dayId : String)
    (name address notes : String) (images : List String)
    (freshId : String) : Trip :=
  if jsTrim name = "" ∨ jsTrim address = "" then trip
  else
    let location : Location :=
      { id := freshId, name := name, address := address,
        notes := some notes, images := images }
    { trip with days := trip.days.map (fun day =>
        if day.id = dayId then { day with locations := day.locations ++ [location] }
        else day) }

/-- `removeLocation` (lines 180-188): filters the location with the
given id out of the day with the given id. -/
def removeLocation (trip : Trip) (dayId : String) (locId : String) : Trip :=
  { trip with days := trip.days.map (fun day =>
      if day.id = dayId then
        { day with locations := day.locations.filter (fun l => l.id ≠ locId) }
      else day) }

/-- The destructuring swap of `moveLocation` (line 199) on a list,
defined where both indices are in bounds (the only inputs the
component produces: `index` comes from rendering the list). -/
def swapAt (l : List Location) (i j : Nat) : List Location :=
  match l[i]?, l[j]? with
  | some a, some b => (l.set i b).set j a
  | _, _ => l

/-- `moveLocation` (lines 190-207): finds the day by id (no-op when
absent), no-op when `index + direction` falls outside
`[0, locations.length)`, otherwise swaps the two adjacent entries and
writes the new list back into every day matching the id. -/
def moveLocation (trip : Trip) (dayId : String) (index : Nat) (direction : Int) : Trip :=
  match trip.days.find? (fun d => d.id = dayId) with
  | none => trip
  | some day =>
    let newIndex : Int := (index : Int) + direction
    if newIndex < 0 ∨ (day.locations.length : Int) ≤ newIndex then trip
    else
      let locations := swapAt day.locations index newIndex.toNat
      { trip with days := trip.days.map (fun d =>
          if d.id = dayId then { d with locations := locations } else d) }

/-- `saveLocationEdit` (lines 298-311), single-trip core: replaces the
location whose id matches `loc.id` inside the day `dayId`. -/
def editLocation (trip : Trip) (dayId : String) (loc : Location) : Trip :=
  { trip with days := trip.days.map (fun day =>
      if day.id = dayId then
        { day with locations := day.locations.map (fun l => if l.id = loc.id then loc else l) }
      else day) }

/-! ## Theorems: migration (C4, C5) -/

/-- **C4.** A legacy-shaped raw trip (no `days` field) migrates to a
trip with exactly one day, labelled `"Day 1"`, carrying the fresh id,
whose locations are the legacy `locations` (or `[]` when absent); a
raw trip that already has a `days` field is returned unchanged. -/
theorem migrate_legacy_and_passthrough (t : RawTrip) (freshId : String) :
    (t.days = none →
      (migrate freshId t).days =
        some [{ id := freshId, name := "Day 1", locations := t.locations.getD [] }]) ∧
    (∀ ds, t.days = some ds → migrate freshId t = t) := by
  constructor
  · intro h
    simp [migrate, h]
  · intro ds h
    simp [migrate, h]

/-- Witness for C4: a concrete legacy raw trip gains the synthesized
day, and a concrete migrated raw trip passes through unchanged. -/
theorem migrate_legacy_and_passthrough_witness :
    (migrate "f" { id := "t1", name := "Tokyo", days := none,
                   locations := none, createdAt := 0 }).days =
      some [{ id := "f", name := "Day 1", locations := [] }] :=
  (migrate_legacy_and_passthrough
    { id := "t1", name := "Tokyo", days := none, locations := none, createdAt := 0 } "f").1 rfl

/-- **C5.** `migrate` is idempotent: a second migration (with any
fresh id) leaves the result of the first unchanged. -/
theorem migrate_idempotent (t : RawTrip) (id1 id2 : String) :
    migrate id2 (migrate id1 t) = migrate id1 t := by
  cases h : t.days with
  | none => simp [migrate, h]
  | some ds => simp [migrate, h]

/-! ## Theorems: deleteDay (C3) -/

/-- **C3.** Deleting a day from a trip with exactly one day returns
the validation alert and leaves the trip unchanged; and (the
at-least-one-day invariant) provided day ids are distinct, `deleteDay`
never produces a trip with an empty `days` list from a trip with a
nonempty one. -/
theorem deleteDay_last_day_invariant (trip : Trip) (dayId : String) :
    (trip.days.length = 1 → deleteDay trip dayId = (some lastDayAlert, trip)) ∧
    ((trip.days.map Day.id).Nodup → trip.days ≠ [] →
      (deleteDay trip dayId).2.days ≠ []) := by
  constructor
  · intro h
    simp [deleteDay, h]
  · intro hnd hne
    by_cases hlen : trip.days.length ≤ 1
    · simpa [deleteDay, hlen] using hne
    · simp only [deleteDay, if_neg hlen]
      intro hempty
      simp only [List.filter_eq_nil_iff] at hempty
      push_neg at hlen
      match htrip : trip.days, hlen with
      | d1 :: d2 :: rest, _ =>
        rw [htrip] at hempty hnd
        have h1 : d1.id = dayId := by
          have := hempty d1 (by simp)
          simpa using this
        have h2 : d2.id = dayId := by
          have := hempty d2 (by simp)
          simpa using this
        simp only [List.map_cons, List.nodup_cons] at hnd
        exact hnd.1 (by simp [h1, h2])

/-- Witness for C3: on a concrete one-day trip, any `deleteDay` call
alerts and returns the trip unchanged, and the result still has a
nonempty `days` list. -/
theorem deleteDay_last_day_invariant_witness :
    (deleteDay { id := "t", name := "Tokyo",
                 days := [{ id := "d1", name := "Day 1", locations := [] }],
                 createdAt := 0 } "d1" =
      (some lastDayAlert,
        { id := "t", name := "Tokyo",
          days := [{ id := "d1", name := "Day 1", locations := [] }],
          createdAt := 0 })) ∧
    (deleteDay { id := "t", name := "Tokyo",
                 days := [{ id := "d1", name := "Day 1", locations := [] }],
                 createdAt := 0 } "d1").2.days ≠ [] := by
  refine ⟨?_, ?_⟩
  · exact (deleteDay_last_day_invariant _ "d1").1 rfl
  · exact (deleteDay_last_day_invariant _ "d1").2 (by decide) (by decide)

/-! ## Theorems: addLocation (C7), stale-day no-ops (C10), moveLocation (C6) -/

/-- When day ids are distinct, `find?` by a member day's id returns
exactly that day. -/
theorem find?_id_of_nodup {days : List Day} {day : Day}
    (hnd : (days.map Day.id).Nodup) (hmem : day ∈ days) :
    days.find? (fun d => d.id = day.id) = some day := by
  induction days with
  | nil => simp at hmem
  | cons d rest ih =>
    simp only [List.map_cons, List.nodup_cons] at hnd
    rcases List.mem_cons.mp hmem with h | h
    · subst h
      simp [List.find?]
    · have hne : d.id ≠ day.id := by
        intro he
        exact hnd.1 (he ▸ List.mem_map_of_mem Day.id h)
      have hfalse : (decide (d.id = day.id)) = false := decide_eq_false hne
      rw [List.find?_cons, hfalse]
      exact ih hnd.2 h

/-- **C7.** `addLocation` is a no-op when the trimmed name or address
is empty; otherwise every day whose id differs from the target is
untouched and the (per-position) target day gets exactly one new
location, with the fresh id, appended at the end. -/
theorem addLocation_spec (trip : Trip) (dayId : String)
    (name address notes : String) (images : List String) (freshId : String) :
    (jsTrim name = "" ∨ jsTrim address = "" →
      addLocation trip dayId name address notes images freshId = trip) ∧
    (jsTrim name ≠ "" → jsTrim address ≠ "" →
      (addLocation trip dayId name address notes images freshId).days.length =
        trip.days.length ∧
      (∀ j (hj : j < trip.days.length), trip.days[j].id ≠ dayId →
        (addLocation trip dayId name address notes images freshId).days[j]? =
          some trip.days[j]) ∧
      (∀ j (hj : j < trip.days.length), trip.days[j].id = dayId →
        (addLocation trip dayId name address notes images freshId).days[j]? =
          some { trip.days[j] with locations := trip.days[j].locations ++
            [{ id := freshId, name := name, address := address,
               notes := some notes, images := images }] })) := by
  constructor
  · intro h
    unfold addLocation
    rw [if_pos h]
  · intro h1 h2
    have hcond : ¬(jsTrim name = "" ∨ jsTrim address = "") := by tauto
    unfold addLocation
    rw [if_neg hcond]
    refine ⟨by simp, ?_, ?_⟩
    · intro j hj hne
      simp [List.getElem?_map, List.getElem?_eq_getElem hj, hne]
    · intro j hj heq
      simp [List.getElem?_map, List.getElem?_eq_getElem hj, heq]

/-- A concrete day with no locations, and a one-day trip holding it. -/
def dayEmpty : Day := { id := "d1", name := "Day 1", locations := [] }

/-- A concrete trip with the single empty day `dayEmpty`. -/
def tripOneDay : Trip :=
  { id := "t", name := "Tokyo", days := [dayEmpty], createdAt := 0 }

/-- The concrete location `"Sensoji"` with fresh id `"l1"`. -/
def sensoji : Location :=
  { id := "l1", name := "Sensoji", address := "2-3-1 Asakusa",
    notes := some "", images := [] }

/-- Witness for C7: on the concrete one-day trip, adding with an empty
name is a no-op, and adding `"Sensoji"` appends it to the day. -/
theorem addLocation_spec_witness :
    (addLocation tripOneDay "d1" "" "addr" "" [] "l1" = tripOneDay) ∧
    (addLocation tripOneDay "d1" "Sensoji" "2-3-1 Asakusa" "" [] "l1").days[0]? =
      some { dayEmpty with locations := [sensoji] } := by
  constructor
  · exact (addLocation_spec tripOneDay "d1" "" "addr" "" [] "l1").1
      (Or.inl (by decide))
  · exact ((addLocation_spec tripOneDay "d1" "Sensoji" "2-3-1 Asakusa" "" [] "l1").2
      (by decide) (by decide)).2.2 0 (by decide) (by decide)

/-- **C10.** When no day of the trip carries the given id,
`moveLocation` (any index, any direction) and `removeLocation` (any
location id) leave the trip's days unchanged. -/
theorem stale_dayId_noop (trip : Trip) (dayId : String)
    (index : Nat) (direction : Int) (locId : String)
    (h : ∀ d ∈ trip.days, d.id ≠ dayId) :
    (moveLocation trip dayId index direction).days = trip.days ∧
    (removeLocation trip dayId locId).days = trip.days := by
  constructor
  · have hfind : trip.days.find? (fun d => d.id = dayId) = none := by
      rw [List.find?_eq_none]
      intro d hd
      simpa using h d hd
    unfold moveLocation
    rw [hfind]
  · unfold removeLocation
    simp only
    rw [List.map_congr_left fun d hd => if_neg (h d hd), List.map_id']

/-- Witness for C10: on a concrete trip with a single day `"d1"`, the
stale id `"zzz"` makes both operations no-ops. -/
theorem stale_dayId_noop_witness :
    (moveLocation tripOneDay "zzz" 0 1).days = [dayEmpty] ∧
    (removeLocation tripOneDay "zzz" "l1").days = [dayEmpty] :=
  stale_dayId_noop tripOneDay "zzz" 0 1 "l1" (by decide)

/-- **C6.** `moveLocation` on a day of the trip (day ids distinct,
`index` a valid position, direction ±1): no-op when `index +
direction` is out of bounds; otherwise the entries at `index` and
`index + direction` of that day are exchanged, every other position of
that day and every other day are unchanged. -/
theorem moveLocation_spec (trip : Trip) (day : Day) (dayId : String)
    (index : Nat) (direction : Int)
    (hnd : (trip.days.map Day.id).Nodup) (hmem : day ∈ trip.days)
    (hid : day.id = dayId) (hidx : index < day.locations.length)
    (hdir : direction = -1 ∨ direction = 1) :
    (((index : Int) + direction < 0 ∨
        (day.locations.length : Int) ≤ (index : Int) + direction) →
      moveLocation trip dayId index direction = trip) ∧
    (∀ ni : Nat, (index : Int) + direction = (ni : Int) →
      ni < day.locations.length →
      (moveLocation trip dayId index direction).days.length = trip.days.length ∧
      (∀ j (hj : j < trip.days.length), trip.days[j].id ≠ dayId →
        (moveLocation trip dayId index direction).days[j]? = some trip.days[j]) ∧
      (∀ j (hj : j < trip.days.length), trip.days[j] = day →
        ∃ d', (moveLocation trip dayId index direction).days[j]? = some d' ∧
          d'.id = day.id ∧ d'.name = day.name ∧
          d'.locations.length = day.locations.length ∧
          d'.locations[index]? = day.locations[ni]? ∧
          d'.locations[ni]? = day.locations[index]? ∧
          (∀ k, k ≠ index → k ≠ ni → d'.locations[k]? = day.locations[k]?))) := by
  have hfind : trip.days.find? (fun d => d.id = dayId) = some day :=
    hid ▸ find?_id_of_nodup hnd hmem
  constructor
  · intro hoob
    unfold moveLocation
    rw [hfind]
    simp only
    rw [if_pos hoob]
  · intro ni hni hlt
    have hinb : ¬((index : Int) + direction < 0 ∨
        (day.locations.length : Int) ≤ (index : Int) + direction) := by
      rw [hni]
      push_neg
      constructor
      · positivity
      · exact_mod_cast hlt
    have htoNat : ((index : Int) + direction).toNat = ni := by
      rw [hni]; simp
    have hswap :
        swapAt day.locations index ni =
          (day.locations.set index day.locations[ni]).set ni day.locations[index] := by
      unfold swapAt
      rw [List.getElem?_eq_getElem hidx, List.getElem?_eq_getElem hlt]
    refine ⟨?_, ?_, ?_⟩
    · unfold moveLocation
      rw [hfind]
      simp only
      rw [if_neg hinb]
      simp
    · intro j hj hne
      unfold moveLocation
      rw [hfind]
      simp only
      rw [if_neg hinb]
      simp [List.getElem?_map, List.getElem?_eq_getElem hj, hne]
    · intro j hj heq
      unfold moveLocation
      rw [hfind]
      simp only
      rw [if_neg hinb]
      refine ⟨{ day with locations := swapAt day.locations index ((index : Int) + direction).toNat }, ?_, rfl, rfl, ?_, ?_, ?_, ?_⟩
      · simp [List.getElem?_map, List.getElem?_eq_getElem hj, heq, hid]
      · rw [htoNat, hswap]; simp
      · rw [htoNat, hswap]
        by_cases hij : index = ni
        · subst hij
          rw [List.getElem?_set_eq_of_lt _ (by simpa using hidx)]
          rw [List.getElem?_eq_getElem hlt]
        · rw [List.getElem?_set_ne (fun h => hij h.symm)]
          rw [List.getElem?_set_eq_of_lt _ hidx, List.getElem?_eq_getElem hlt]
      · rw [htoNat, hswap]
        rw [List.getElem?_set_eq_of_lt _ (by simpa using hlt)]
        rw [List.getElem?_eq_getElem hidx]
      · intro k hki hkn
        rw [htoNat, hswap]
        rw [List.getElem?_set_ne (fun h => hkn h.symm),
          List.getElem?_set_ne (fun h => hki h.symm)]

/-! ## Theorems: standalone trip vs collection (C9)

Every handler that targets a trip commits the updated value `u` with
`setCurrentTrip(u)` and
`setTrips(trips.map(t => t.id === u.id ? u : t))` — or, in its guard /
early-return branches, leaves both pieces of state untouched.  The
pair-form operations below embed the handlers over the state pair
(current trip, trip collection). -/

/-- The collection update of every committing handler:
`trips.map(t => t.id === updated.id ? updated : t)`. -/
def commit (trips : List Trip) (u : Trip) : List Trip :=
  trips.map (fun t => if t.id = u.id then u else t)

/-- The consistency contract: looking the standalone trip's id up in
the collection yields that very trip. -/
def tripSync (trips : List Trip) (trip : Trip) : Prop :=
  trips.find? (fun t => t.id = trip.id) = some trip

/-- `addDay` (lines 115-128) over the state pair. -/
def addDayPair (trips : List Trip) (trip : Trip) (name freshId : String) :
    Trip × List Trip :=
  if jsTrim name = "" then (trip, trips)
  else
    let u := addDay trip name freshId
    (u, commit trips u)

/-- `deleteDay` (lines 130-142) over the state pair: the alert branch
touches neither piece of state. -/
def deleteDayPair (trips : List Trip) (trip : Trip) (dayId : String) :
    Trip × List Trip :=
  match deleteDay trip dayId with
  | (some _, _) => (trip, trips)
  | (none, u) => (u, commit trips u)

/-- `addLocation` (lines 160-178) over the state pair. -/
def addLocationPair (trips : List Trip) (trip : Trip) (dayId : String)
    (name address notes : String) (images : List String) (freshId : String) :
    Trip × List Trip :=
  if jsTrim name = "" ∨ jsTrim address = "" then (trip, trips)
  else
    let u := addLocation trip dayId name address notes images freshId
    (u, commit trips u)

/-- `removeLocation` (lines 180-188) over the state pair. -/
def removeLocationPair (trips : List Trip) (trip : Trip)
    (dayId locId : String) : Trip × List Trip :=
  let u := removeLocation trip dayId locId
  (u, commit trips u)

/-- `moveLocation` (lines 190-207) over the state pair: the missing-day
and out-of-bounds early returns touch neither piece of state. -/
def moveLocationPair (trips : List Trip) (trip : Trip) (dayId : String)
    (index : Nat) (direction : Int) : Trip × List Trip :=
  match trip.days.find? (fun d => d.id = dayId) with
  | none => (trip, trips)
  | some day =>
    if ((index : Int) + direction) < 0 ∨
        (day.locations.length : Int) ≤ (index : Int) + direction then (trip, trips)
    else
      let u := moveLocation trip dayId index direction
      (u, commit trips u)

/-- `saveLocationEdit` (lines 298-311) over the state pair. -/
def editLocationPair (trips : List Trip) (trip : Trip) (dayId : String)
    (loc : Location) : Trip × List Trip :=
  let u := editLocation trip dayId loc
  (u, commit trips u)

theorem addDay_id (trip : Trip) (name freshId : String) :
    (addDay trip name freshId).id = trip.id := by
  unfold addDay; split <;> rfl

theorem deleteDay_id (trip : Trip) (dayId : String) :
    (deleteDay trip dayId).2.id = trip.id := by
  unfold deleteDay; split <;> rfl

theorem addLocation_id (trip : Trip) (dayId name address notes : String)
    (images : List String) (freshId : String) :
    (addLocation trip dayId name address notes images freshId).id = trip.id := by
  unfold addLocation; split <;> rfl

theorem moveLocation_id (trip : Trip) (dayId : String) (index : Nat)
    (direction : Int) : (moveLocation trip dayId index direction).id = trip.id := by
  unfold moveLocation
  cases trip.days.find? (fun d => d.id = dayId) with
  | none => rfl
  | some day => simp only; split <;> rfl

/-- Committing an update that keeps the trip's id preserves the sync
contract. -/
theorem commit_tripSync {trips : List Trip} {trip u : Trip}
    (hs : tripSync trips trip) (hid : u.id = trip.id) :
    tripSync (commit trips u) u := by
  unfold tripSync commit at *
  induction trips with
  | nil => simp [List.find?] at hs
  | cons t rest ih =>
    rw [List.find?_cons] at hs
    by_cases ht : t.id = trip.id
    · rw [decide_eq_true ht] at hs
      have : t = trip := by simpa using hs
      subst this
      have : t.id = u.id := by rw [ht, hid]
      simp [List.find?, this]
    · rw [decide_eq_false ht] at hs
      have htu : ¬ t.id = u.id := by rw [hid]; exact ht
      simp only [List.map_cons, if_neg htu, List.find?_cons, decide_eq_false htu]
      exact ih hs

/-- **C9.** Starting from a synced (current trip, collection) state,
every trip-targeting operation — addDay, deleteDay, addLocation,
removeLocation, moveLocation, editLocation — leaves the standalone
updated trip structurally equal to the trip looked up by its id in the
updated collection. -/
theorem ops_keep_current_trip_synced (trips : List Trip) (trip : Trip)
    (hs : tripSync trips trip)
    (dayName dayId freshId name address notes locId : String)
    (images : List String) (index : Nat) (direction : Int) (loc : Location) :
    (tripSync (addDayPair trips trip dayName freshId).2
      (addDayPair trips trip dayName freshId).1) ∧
    (tripSync (deleteDayPair trips trip dayId).2
      (deleteDayPair trips trip dayId).1) ∧
    (tripSync (addLocationPair trips trip dayId name address notes images freshId).2
      (addLocationPair trips trip dayId name address notes images freshId).1) ∧
    (tripSync (removeLocationPair trips trip dayId locId).2
      (removeLocationPair trips trip dayId locId).1) ∧
    (tripSync (moveLocationPair trips trip dayId index direction).2
      (moveLocationPair trips trip dayId index direction).1) ∧
    (tripSync (editLocationPair trips trip dayId loc).2
      (editLocationPair trips trip dayId loc).1) := by
  refine ⟨?_, ?_, ?_, ?_, ?_, ?_⟩
  · unfold addDayPair
    split
    · exact hs
    · exact commit_tripSync hs (addDay_id trip dayName freshId)
  · unfold deleteDayPair
    split
    · exact hs
    · next u heq =>
      have : (deleteDay trip dayId).2 = u := by rw [heq]
      exact commit_tripSync hs (this ▸ deleteDay_id trip dayId)
  · unfold addLocationPair
    split
    · exact hs
    · exact commit_tripSync hs (addLocation_id trip dayId name address notes images freshId)
  · exact commit_tripSync hs rfl
  · unfold moveLocationPair
    cases trip.days.find? (fun d => d.id = dayId) with
    | none => exact hs
    | some day =>
      simp only
      split
      · exact hs
      · exact commit_tripSync hs (moveLocation_id trip dayId index direction)
  · exact commit_tripSync hs rfl

/-- Witness for C9: the concrete singleton collection `[tripOneDay]`
is synced with `tripOneDay`, and stays synced after each operation. -/
theorem ops_keep_current_trip_synced_witness :
    tripSync (addDayPair [tripOneDay] tripOneDay "Day 2" "d2").2
      (addDayPair [tripOneDay] tripOneDay "Day 2" "d2").1 :=
  (ops_keep_current_trip_synced [tripOneDay] tripOneDay (by unfold tripSync; decide)
    "Day 2" "d1" "d2" "Sensoji" "2-3-1 Asakusa" "" "l1" [] 0 1
    { id := "l1", name := "x", address := "y", notes := none, images := [] }).1

/-- A concrete day holding the two locations `"Sensoji"` and `"Tower"`. -/
def dayTwoLocs : Day :=
  { id := "d1", name := "Day 1", locations :=
      [{ id := "l1", name := "Sensoji", address := "2-3-1 Asakusa",
         notes := some "", images := [] },
       { id := "l2", name := "Tower", address := "4-2-8 Shibakoen",
         notes := some "", images := [] }] }

/-- A concrete trip holding `dayTwoLocs`. -/
def tripTwoLocs : Trip :=
  { id := "t", name := "Tokyo", days := [dayTwoLocs], createdAt := 0 }

/-- Witness for C6: on the concrete two-location day, moving index 0
with direction `-1` is a no-op. -/
theorem moveLocation_spec_witness :
    moveLocation tripTwoLocs "d1" 0 (-1) = tripTwoLocs :=
  (moveLocation_spec tripTwoLocs dayTwoLocs "d1" 0 (-1) (by decide)
    (by decide) rfl (by decide) (Or.inl rfl)).1 (Or.inl (by decide))

/-! ## Share codec: structural projection and import (C2)

`generateShareUrl` (lines 221-234) projects the current trip to
`{name, days: [{name, locations: [{name, address, notes}]}]}` before
encoding; `importSharedTrip` (lines 241-268) rebuilds a full trip from
that shape, with fresh ids (`Date.now() + Math.random()`, passed in
here as opaque index-based generators), the localized suffix
`' (分享)'` on the name, `notes || ''`, and empty `images`. -/

/-- The per-location projection inside `generateShareUrl` (line 227). -/
structure ShareLocation where
  name : String
  address : String
  notes : Option String
deriving DecidableEq, Repr

/-- The per-day projection inside `generateShareUrl` (lines 225-228). -/
structure ShareDay where
  name : String
  locations : List ShareLocation
deriving DecidableEq, Repr

/-- The `data` object of `generateShareUrl` (lines 223-229). -/
structure ShareTrip where
  name : String
  days : List ShareDay
deriving DecidableEq, Repr

/-- `l => ({name: l.name, address: l.address, notes: l.notes})`. -/
def shareLoc (l : Location) : ShareLocation :=
  { name := l.name, address := l.address, notes := l.notes }

/-- `d => ({name: d.name, locations: d.locations.map(...)})`. -/
def shareDay (d : Day) : ShareDay :=
  { name := d.name, locations := d.locations.map shareLoc }

/-- The shareable projection built by `generateShareUrl`. -/
def buildShareable (t : Trip) : ShareTrip :=
  { name := t.name, days := t.days.map shareDay }

/-- The localized "(shared)" suffix of `importSharedTrip` (line 246). -/
def sharedSuffix : String := " (分享)"

/-- A rebuilt location of `importSharedTrip` (lines 250-256): fresh id,
`notes: l.notes || ''`, `images: []`. -/
def matLoc (locIdGen : Nat → Nat → String) (i j : Nat) (l : ShareLocation) :
    Location :=
  { id := locIdGen i j, name := l.name, address := l.address,
    notes := some (l.notes.getD ""), images := [] }

/-- A rebuilt day of `importSharedTrip` (lines 247-257). -/
def matDay (dayIdGen : Nat → String) (locIdGen : Nat → Nat → String)
    (i : Nat) (d : ShareDay) : Day :=
  { id := dayIdGen i, name := d.name,
    locations := d.locations.mapIdx (matLoc locIdGen i) }

/-- The trip rebuilt by `importSharedTrip` (lines 244-259) from a
shareable shape. -/
def materializeImportedTrip (s : ShareTrip) (tripId : String)
    (dayIdGen : Nat → String) (locIdGen : Nat → Nat → String)
    (now : Nat) : Trip :=
  { id := tripId, name := s.name ++ sharedSuffix,
    days := s.days.mapIdx (matDay dayIdGen locIdGen),
    createdAt := now }

/-- A concrete location whose optional `notes` field is absent. -/
def locNoNotes : Location :=
  { id := "l9", name := "N", address := "A", notes := none, images := ["img"] }

/-- A concrete trip holding `locNoNotes`. -/
def tripNoNotes : Trip :=
  { id := "t9", name := "Kyoto",
    days := [{ id := "d9", name := "Day 1", locations := [locNoNotes] }],
    createdAt := 0 }

/-- A concrete day-id generator for counterexamples and witnesses. -/
def cexDayGen : Nat → String := fun _ => "d"

/-- A concrete location-id generator for counterexamples and witnesses. -/
def cexLocGen : Nat → Nat → String := fun _ _ => "l"

/-- Counterexample to C2 as stated: on `tripNoNotes` (one location,
`notes` absent) the materialized import has `notes = some ""`, not the
original's `none` — `notes` is not preserved. -/
theorem materialize_notes_not_preserved :
    (((materializeImportedTrip (buildShareable tripNoNotes) "i" cexDayGen
        cexLocGen 0).days.headD dayEmpty).locations.headD sensoji).notes ≠
      ((tripNoNotes.days.headD dayEmpty).locations.headD sensoji).notes := by
  decide

/-- **C2 (amended).** Materializing the shareable projection of any
trip yields a trip named with the localized "(shared)" suffix, with
the same number of days; each day keeps its name and its number of
locations, each location keeps `name` and `address`, its `notes`
become `some (notes.getD "")` (present notes are preserved, absent
notes become the empty string), and its `images` are `[]` regardless
of the original images. -/
theorem materialize_buildShareable_roundtrip (t : Trip) (tripId : String)
    (dayIdGen : Nat → String) (locIdGen : Nat → Nat → String) (now : Nat) :
    (materializeImportedTrip (buildShareable t) tripId dayIdGen locIdGen now).name =
      t.name ++ sharedSuffix ∧
    (materializeImportedTrip (buildShareable t) tripId dayIdGen locIdGen now).days.length =
      t.days.length ∧
    (∀ i (hi : i < t.days.length),
      ∃ d', (materializeImportedTrip (buildShareable t) tripId dayIdGen locIdGen now).days[i]? =
          some d' ∧
        d'.name = t.days[i].name ∧
        d'.locations.length = t.days[i].locations.length ∧
        (∀ j (hj : j < t.days[i].locations.length),
          ∃ l', d'.locations[j]? = some l' ∧
            l'.name = t.days[i].locations[j].name ∧
            l'.address = t.days[i].locations[j].address ∧
            l'.notes = some ((t.days[i].locations[j].notes).getD "") ∧
            l'.images = [])) := by
  refine ⟨rfl, ?_, ?_⟩
  · simp [materializeImportedTrip, buildShareable, List.length_mapIdx]
  · intro i hi
    refine ⟨matDay dayIdGen locIdGen i (shareDay t.days[i]), ?_, rfl, ?_, ?_⟩
    · simp [materializeImportedTrip, buildShareable, List.getElem?_mapIdx,
        List.getElem?_map, List.getElem?_eq_getElem hi]
    · simp [matDay, shareDay, List.length_mapIdx]
    · intro j hj
      refine ⟨matLoc locIdGen i j (shareLoc t.days[i].locations[j]), ?_, rfl, rfl, rfl, rfl⟩
      simp [matDay, shareDay, matLoc, shareLoc, List.getElem?_mapIdx,
        List.getElem?_map, List.getElem?_eq_getElem hj]

/-- Witness for the amended C2: applied to the concrete `tripNoNotes`,
the materialized name carries the suffix and the sole location's notes
become `some ""` with empty images. -/
theorem materialize_buildShareable_roundtrip_witness :
    (materializeImportedTrip (buildShareable tripNoNotes) "i" cexDayGen
      cexLocGen 0).name = "Kyoto" ++ sharedSuffix :=
  (materialize_buildShareable_roundtrip tripNoNotes "i" cexDayGen cexLocGen 0).1

/-! ## Codec: UTF-8

`utf8ToBase64` (lines 25-29) starts from `new TextEncoder().encode(str)`:
the UTF-8 bytes of the string.  Strings are sequences of Unicode scalar
values (`List Char`); bytes are `Nat`s below 256. -/

/-- The UTF-8 encoding of one scalar value (what `TextEncoder`
produces per character). -/
def utf8EncodeChar (c : Char) : List Nat :=
  if c.toNat < 0x80 then [c.toNat]
  else if c.toNat < 0x800 then [0xC0 + c.toNat / 64, 0x80 + c.toNat % 64]
  else if c.toNat < 0x10000 then
    [0xE0 + c.toNat / 4096, 0x80 + c.toNat / 64 % 64, 0x80 + c.toNat % 64]
  else
    [0xF0 + c.toNat / 262144, 0x80 + c.toNat / 4096 % 64,
      0x80 + c.toNat / 64 % 64, 0x80 + c.toNat % 64]

/-- The UTF-8 bytes of a string (`new TextEncoder().encode(str)`). -/
def utf8Encode : List Char → List Nat
  | [] => []
  | c :: cs => utf8EncodeChar c ++ utf8Encode cs

/-- Strict UTF-8 decoding of one scalar value from the front of a byte
sequence: rejects truncated sequences, bad continuation bytes,
overlong forms and surrogates, and returns the decoded character with
the remaining bytes. -/
def utf8DecodeChar? : List Nat → Option (Char × List Nat)
  | [] => none
  | b0 :: rest =>
    if b0 < 0x80 then some (Char.ofNat b0, rest)
    else if b0 ≤ 0xDF then
      match rest with
      | b1 :: rest' =>
        let m := (b0 - 0xC0) * 64 + (b1 - 0x80)
        if 0x80 ≤ b1 ∧ b1 ≤ 0xBF ∧ 0x80 ≤ m then some (Char.ofNat m, rest')
        else none
      | [] => none
    else if b0 ≤ 0xEF then
      match rest with
      | b1 :: b2 :: rest' =>
        let m := (b0 - 0xE0) * 4096 + (b1 - 0x80) * 64 + (b2 - 0x80)
        if 0x80 ≤ b1 ∧ b1 ≤ 0xBF ∧ 0x80 ≤ b2 ∧ b2 ≤ 0xBF ∧ 0x800 ≤ m ∧
            (m < 0xD800 ∨ 0xDFFF < m) then some (Char.ofNat m, rest')
        else none
      | _ => none
    else if b0 ≤ 0xF4 then
      match rest with
      | b1 :: b2 :: b3 :: rest' =>
        let m := (b0 - 0xF0) * 262144 + (b1 - 0x80) * 4096 +
          (b2 - 0x80) * 64 + (b3 - 0x80)
        if 0x80 ≤ b1 ∧ b1 ≤ 0xBF ∧ 0x80 ≤ b2 ∧ b2 ≤ 0xBF ∧ 0x80 ≤ b3 ∧
            b3 ≤ 0xBF ∧ 0x10000 ≤ m ∧ m < 0x110000 then some (Char.ofNat m, rest')
        else none
      | _ => none
    else none

/-- Fuel-driven total UTF-8 decoding, modelling `new
TextDecoder().decode(bytes)`: an undecodable position emits U+FFFD and
resynchronizes on the next byte.  (`TextDecoder`'s default mode never
throws; on invalid input it substitutes replacement characters.  The
exact number of replacement characters emitted for an invalid run is a
modelling simplification — it only differs from the WHATWG
maximal-subpart rule on invalid byte sequences, never on valid
UTF-8.) -/
def utf8DecodeAux : Nat → List Nat → List Char
  | _, [] => []
  | 0, _ :: _ => []
  | fuel + 1, b :: bs =>
    match utf8DecodeChar? (b :: bs) with
    | some (c, rest) => c :: utf8DecodeAux fuel rest
    | none => Char.ofNat 0xFFFD :: utf8DecodeAux fuel bs

/-- `new TextDecoder().decode(bytes)`. -/
def utf8Decode (bs : List Nat) : List Char := utf8DecodeAux bs.length bs

/-- The scalar-value bounds carried by every `Char`. -/
theorem char_toNat_valid (c : Char) :
    c.toNat < 0xD800 ∨ (0xDFFF < c.toNat ∧ c.toNat < 0x110000) := by
  rcases c.valid with h | h
  · left
    simpa [UInt32.lt_def, Char.toNat] using h
  · right
    refine ⟨?_, ?_⟩ <;> simp [UInt32.lt_def, Char.toNat] at h ⊢ <;> omega

/-- Every byte produced by `utf8EncodeChar` is below 256. -/
theorem utf8EncodeChar_lt_256 (c : Char) : ∀ b ∈ utf8EncodeChar c, b < 256 := by
  have hv := char_toNat_valid c
  unfold utf8EncodeChar
  split
  · intro b hb
    simp at hb
    omega
  · split
    · intro b hb
      simp at hb
      rcases hb with hb | hb <;> omega
    · split
      · intro b hb
        simp at hb
        rcases hb with hb | hb | hb <;> omega
      · intro b hb
        simp at hb
        rcases hb with hb | hb | hb | hb <;> omega

/-- Every byte of an encoded string is below 256. -/
theorem utf8Encode_lt_256 (s : List Char) : ∀ b ∈ utf8Encode s, b < 256 := by
  induction s with
  | nil => intro b hb; simp [utf8Encode] at hb
  | cons c cs ih =>
    intro b hb
    rcases List.mem_append.mp hb with h | h
    · exact utf8EncodeChar_lt_256 c b h
    · exact ih b h

/-- `utf8EncodeChar` always emits at least one byte. -/
theorem utf8EncodeChar_ne_nil (c : Char) : utf8EncodeChar c ≠ [] := by
  unfold utf8EncodeChar
  split
  · simp
  · split
    · simp
    · split <;> simp

/-- Key UTF-8 round trip: strict decoding of an encoded character from
the front of any byte stream recovers the character and the rest. -/
theorem utf8DecodeChar?_encode (c : Char) (rest : List Nat) :
    utf8DecodeChar? (utf8EncodeChar c ++ rest) = some (c, rest) := by
  have hv := char_toNat_valid c
  have hofn : Char.ofNat c.toNat = c := Char.ofNat_toNat c
  by_cases h1 : c.toNat < 0x80
  · have he : utf8EncodeChar c = [c.toNat] := by
      unfold utf8EncodeChar; rw [if_pos h1]
    rw [he, List.cons_append, List.nil_append]
    simp only [utf8DecodeChar?]
    rw [if_pos h1, hofn]
  · by_cases h2 : c.toNat < 0x800
    · have he : utf8EncodeChar c = [0xC0 + c.toNat / 64, 0x80 + c.toNat % 64] := by
        unfold utf8EncodeChar; rw [if_neg h1, if_pos h2]
      rw [he]
      simp only [List.cons_append, List.nil_append, utf8DecodeChar?]
      rw [if_neg (by omega), if_pos (by omega), if_pos (by omega)]
      have hm : (0xC0 + c.toNat / 64 - 0xC0) * 64 + (0x80 + c.toNat % 64 - 0x80) =
          c.toNat := by omega
      rw [hm, hofn]
    · by_cases h3 : c.toNat < 0x10000
      · have he : utf8EncodeChar c =
            [0xE0 + c.toNat / 4096, 0x80 + c.toNat / 64 % 64, 0x80 + c.toNat % 64] := by
          unfold utf8EncodeChar; rw [if_neg h1, if_neg h2, if_pos h3]
        rw [he]
        simp only [List.cons_append, List.nil_append, utf8DecodeChar?]
        rw [if_neg (by omega), if_neg (by omega), if_pos (by omega), if_pos (by omega)]
        have hm : (0xE0 + c.toNat / 4096 - 0xE0) * 4096 +
            (0x80 + c.toNat / 64 % 64 - 0x80) * 64 +
            (0x80 + c.toNat % 64 - 0x80) = c.toNat := by omega
        rw [hm, hofn]
      · have he : utf8EncodeChar c =
            [0xF0 + c.toNat / 262144, 0x80 + c.toNat / 4096 % 64,
              0x80 + c.toNat / 64 % 64, 0x80 + c.toNat % 64] := by
          unfold utf8EncodeChar; rw [if_neg h1, if_neg h2, if_neg h3]
        rw [he]
        simp only [List.cons_append, List.nil_append, utf8DecodeChar?]
        rw [if_neg (by omega), if_neg (by omega), if_neg (by omega), if_pos (by omega),
          if_pos (by omega)]
        have hm : (0xF0 + c.toNat / 262144 - 0xF0) * 262144 +
            (0x80 + c.toNat / 4096 % 64 - 0x80) * 4096 +
            (0x80 + c.toNat / 64 % 64 - 0x80) * 64 +
            (0x80 + c.toNat % 64 - 0x80) = c.toNat := by omega
        rw [hm, hofn]

/-- With enough fuel (one unit per byte suffices), decoding an encoded
string recovers it. -/
theorem utf8DecodeAux_encode (s : List Char) (fuel : Nat)
    (h : (utf8Encode s).length ≤ fuel) :
    utf8DecodeAux fuel (utf8Encode s) = s := by
  induction s generalizing fuel with
  | nil => cases fuel <;> rfl
  | cons c cs ih =>
    have hne : utf8EncodeChar c ≠ [] := utf8EncodeChar_ne_nil c
    have hlen1 : 1 ≤ (utf8EncodeChar c).length := by
      cases he : utf8EncodeChar c with
      | nil => exact absurd he hne
      | cons b bs => simp
    have hslen : (utf8Encode (c :: cs)).length =
        (utf8EncodeChar c).length + (utf8Encode cs).length := by
      show (utf8EncodeChar c ++ utf8Encode cs).length = _
      simp
    cases fuel with
    | zero => omega
    | succ f =>
      obtain ⟨b, bs, he⟩ := List.exists_cons_of_ne_nil hne
      show utf8DecodeAux (f + 1) (utf8EncodeChar c ++ utf8Encode cs) = c :: cs
      rw [he, List.cons_append]
      show (match utf8DecodeChar? (b :: (bs ++ utf8Encode cs)) with
        | some (c, rest) => c :: utf8DecodeAux f rest
        | none => Char.ofNat 0xFFFD :: utf8DecodeAux f (bs ++ utf8Encode cs)) = c :: cs
      rw [← List.cons_append, ← he, utf8DecodeChar?_encode]
      have hrest : (utf8Encode cs).length ≤ f := by omega
      show c :: utf8DecodeAux f (utf8Encode cs) = c :: cs
      rw [ih f hrest]

/-- UTF-8 round trip: `TextDecoder` after `TextEncoder` is the
identity on strings. -/
theorem utf8Decode_encode (s : List Char) : utf8Decode (utf8Encode s) = s :=
  utf8DecodeAux_encode s _ le_rfl

/-! ## Codec: base64

`utf8ToBase64` (lines 25-29) applies `btoa` to the byte string;
`base64ToUtf8` (lines 31-35) applies `atob` (forgiving-base64: ASCII
whitespace stripped, optional `=` padding, anything else outside the
alphabet is an error). -/

/-- The base64 alphabet. -/
def b64Tbl : List Char :=
  "ABCDEFGHIJKLMNOPQRSTUVWXYZabcdefghijklmnopqrstuvwxyz0123456789+/".toList

/-- The alphabet character of a 6-bit value. -/
def tbl (i : Nat) : Char := b64Tbl.getD i 'A'

/-- The 6-bit value of an alphabet character, `none` outside the
alphabet. -/
def b64Idx? (c : Char) : Option Nat := b64Tbl.findIdx? (fun x => x = c)

/-- `btoa` on a byte sequence: 3 bytes become 4 alphabet characters;
a 1- or 2-byte tail is padded with `=`. -/
def b64Encode : List Nat → List Char
  | [] => []
  | [b0] => [tbl (b0 / 4), tbl (b0 % 4 * 16), '=', '=']
  | [b0, b1] => [tbl (b0 / 4), tbl (b0 % 4 * 16 + b1 / 16), tbl (b1 % 16 * 4), '=']
  | b0 :: b1 :: b2 :: rest =>
    tbl (b0 / 4) :: tbl (b0 % 4 * 16 + b1 / 16) :: tbl (b1 % 16 * 4 + b2 / 64) ::
      tbl (b2 % 64) :: b64Encode rest

/-- ASCII whitespace, which forgiving-base64 (`atob`) removes before
decoding. -/
def isB64Ws (c : Char) : Bool :=
  c.toNat ∈ [0x9, 0xA, 0xC, 0xD, 0x20]

/-- The chunk recursion of `atob` after whitespace removal: leftover
bits of a padded or truncated final chunk are discarded, `=` is only
accepted as final padding, any other character outside the alphabet is
an error. -/
def b64DecodeCore : List Char → Option (List Nat)
  | [] => some []
  | [_] => none
  | [c0, c1] => do
    let i0 ← b64Idx? c0
    let i1 ← b64Idx? c1
    pure [i0 * 4 + i1 / 16]
  | [c0, c1, c2] => do
    let i0 ← b64Idx? c0
    let i1 ← b64Idx? c1
    let i2 ← b64Idx? c2
    pure [i0 * 4 + i1 / 16, i1 % 16 * 16 + i2 / 4]
  | c0 :: c1 :: c2 :: c3 :: rest => do
    let i0 ← b64Idx? c0
    let i1 ← b64Idx? c1
    if c2 = '=' then
      if c3 = '=' ∧ rest = [] then pure [i0 * 4 + i1 / 16] else none
    else do
      let i2 ← b64Idx? c2
      if c3 = '=' then
        if rest = [] then pure [i0 * 4 + i1 / 16, i1 % 16 * 16 + i2 / 4] else none
      else do
        let i3 ← b64Idx? c3
        let tail ← b64DecodeCore rest
        pure ((i0 * 4 + i1 / 16) :: (i1 % 16 * 16 + i2 / 4) ::
          (i2 % 4 * 64 + i3) :: tail)

/-- `atob`. -/
def b64Decode (s : List Char) : Option (List Nat) :=
  b64DecodeCore (s.filter (fun c => !isB64Ws c))

/-- Looking an alphabet character back up recovers its 6-bit value. -/
theorem b64Idx?_tbl : ∀ i, i < 64 → b64Idx? (tbl i) = some i := by decide

/-- Alphabet characters are not `=`. -/
theorem tbl_ne_eq : ∀ i, i < 64 → tbl i ≠ '=' := by decide

/-- Alphabet characters and `=` are not ASCII whitespace. -/
theorem tbl_not_ws : ∀ i, ¬ isB64Ws (tbl i) = true := by
  intro i
  by_cases h : i < 64
  · revert i
    decide
  · have : tbl i = 'A' := by
      unfold tbl
      apply List.getD_eq_default
      simp [b64Tbl]
      omega
    rw [this]
    decide

/-- Alphabet characters pass the whitespace filter. -/
theorem tbl_filter_true (i : Nat) : (!isB64Ws (tbl i)) = true := by
  have h := tbl_not_ws i
  cases hws : isB64Ws (tbl i)
  · rfl
  · exact absurd hws h

/-- `btoa` output contains no ASCII whitespace, so the whitespace
filter of `atob` leaves it unchanged. -/
theorem b64Encode_filter (bs : List Nat) :
    (b64Encode bs).filter (fun c => !isB64Ws c) = b64Encode bs := by
  rw [List.filter_eq_self]
  intro c hc
  induction bs using b64Encode.induct with
  | case1 => simp [b64Encode] at hc
  | case2 b0 =>
    unfold b64Encode at hc
    fin_cases hc
    · exact tbl_filter_true _
    · exact tbl_filter_true _
    · decide
    · decide
  | case3 b0 b1 =>
    unfold b64Encode at hc
    fin_cases hc
    · exact tbl_filter_true _
    · exact tbl_filter_true _
    · exact tbl_filter_true _
    · decide
  | case4 b0 b1 b2 rest ih =>
    unfold b64Encode at hc
    rcases List.mem_cons.mp hc with rfl | hc2
    · exact tbl_filter_true _
    rcases List.mem_cons.mp hc2 with rfl | hc3
    · exact tbl_filter_true _
    rcases List.mem_cons.mp hc3 with rfl | hc4
    · exact tbl_filter_true _
    rcases List.mem_cons.mp hc4 with rfl | hc5
    · exact tbl_filter_true _
    exact ih hc5

/-- Chunk-level base64 round trip on byte sequences. -/
theorem b64DecodeCore_encode (bs : List Nat) (hb : ∀ b ∈ bs, b < 256) :
    b64DecodeCore (b64Encode bs) = some bs := by
  induction bs using b64Encode.induct with
  | case1 => rfl
  | case2 b0 =>
    have h0 : b0 < 256 := hb b0 (by simp)
    show b64DecodeCore [tbl (b0 / 4), tbl (b0 % 4 * 16), '=', '='] = some [b0]
    simp [b64DecodeCore, b64Idx?_tbl (b0 / 4) (by omega),
      b64Idx?_tbl (b0 % 4 * 16) (by omega)]
    omega
  | case3 b0 b1 =>
    have h0 : b0 < 256 := hb b0 (by simp)
    have h1 : b1 < 256 := hb b1 (by simp)
    show b64DecodeCore
      [tbl (b0 / 4), tbl (b0 % 4 * 16 + b1 / 16), tbl (b1 % 16 * 4), '='] = some [b0, b1]
    simp [b64DecodeCore, b64Idx?_tbl (b0 / 4) (by omega),
      b64Idx?_tbl (b0 % 4 * 16 + b1 / 16) (by omega),
      b64Idx?_tbl (b1 % 16 * 4) (by omega),
      tbl_ne_eq (b1 % 16 * 4) (by omega)]
    omega
  | case4 b0 b1 b2 rest ih =>
    have h0 : b0 < 256 := hb b0 (by simp)
    have h1 : b1 < 256 := hb b1 (by simp)
    have h2 : b2 < 256 := hb b2 (by simp)
    have hrest : ∀ b ∈ rest, b < 256 := fun b hbm => hb b (by simp [hbm])
    show b64DecodeCore (tbl (b0 / 4) :: tbl (b0 % 4 * 16 + b1 / 16) ::
      tbl (b1 % 16 * 4 + b2 / 64) :: tbl (b2 % 64) :: b64Encode rest) =
      some (b0 :: b1 :: b2 :: rest)
    simp [b64DecodeCore, b64Idx?_tbl (b0 / 4) (by omega),
      b64Idx?_tbl (b0 % 4 * 16 + b1 / 16) (by omega),
      b64Idx?_tbl (b1 % 16 * 4 + b2 / 64) (by omega),
      b64Idx?_tbl (b2 % 64) (by omega),
      tbl_ne_eq (b1 % 16 * 4 + b2 / 64) (by omega),
      tbl_ne_eq (b2 % 64) (by omega), ih hrest]
    omega

/-- Base64 round trip: `atob` after `btoa` recovers the bytes. -/
theorem b64Decode_encode (bs : List Nat) (hb : ∀ b ∈ bs, b < 256) :
    b64Decode (b64Encode bs) = some bs := by
  unfold b64Decode
  rw [b64Encode_filter, b64DecodeCore_encode bs hb]

/-! ## Codec: percent-encoding

`generateShareUrl` (line 230) wraps the base64 token in
`encodeURIComponent`; the load effect (line 77) undoes it with
`decodeURIComponent`.  `encodeURIComponent` leaves its unreserved set
(`A-Z a-z 0-9 - _ . ! ~ * ' ( )`) intact and escapes each UTF-8 byte
of every other character as `%XX`; `decodeURIComponent` reads one
escape sequence at a time, determines the expected length from the
lead byte, and throws (here: `none`) on malformed escapes or invalid
UTF-8. -/

/-- The unreserved set of `encodeURIComponent` (by code point:
`- _ . ! ~ * ' ( )` and alphanumerics). -/
def isUnreserved (c : Char) : Bool :=
  (65 ≤ c.toNat ∧ c.toNat ≤ 90) ∨ (97 ≤ c.toNat ∧ c.toNat ≤ 122) ∨
    (48 ≤ c.toNat ∧ c.toNat ≤ 57) ∨
    c.toNat ∈ [45, 95, 46, 33, 126, 42, 39, 40, 41]

/-- Uppercase hexadecimal digit of a value below 16. -/
def hexDigit (n : Nat) : Char := "0123456789ABCDEF".toList.getD n '0'

/-- `%XX` escape sequences of a byte list. -/
def escapeBytes : List Nat → List Char
  | [] => []
  | b :: bs => '%' :: hexDigit (b / 16) :: hexDigit (b % 16) :: escapeBytes bs

/-- `encodeURIComponent`, one character. -/
def percentEncodeChar (c : Char) : List Char :=
  if isUnreserved c then [c] else escapeBytes (utf8EncodeChar c)

/-- `encodeURIComponent`. -/
def percentEncode : List Char → List Char
  | [] => []
  | c :: cs => percentEncodeChar c ++ percentEncode cs

/-- Value of a hexadecimal digit character (both cases), `none`
otherwise. -/
def hexVal? (c : Char) : Option Nat :=
  if 48 ≤ c.toNat ∧ c.toNat ≤ 57 then some (c.toNat - 48)
  else if 65 ≤ c.toNat ∧ c.toNat ≤ 70 then some (c.toNat - 55)
  else if 97 ≤ c.toNat ∧ c.toNat ≤ 102 then some (c.toNat - 87)
  else none

/-- Read exactly `k` consecutive `%XX` escapes. -/
def readEscapes : Nat → List Char → Option (List Nat × List Char)
  | 0, s => some ([], s)
  | k + 1, '%' :: h :: l :: rest => do
    let hi ← hexVal? h
    let lo ← hexVal? l
    let (bs, r) ← readEscapes k rest
    pure ((hi * 16 + lo) :: bs, r)
  | _ + 1, _ => none

/-- Expected UTF-8 sequence length from a lead byte (`none` for bytes
that cannot start a sequence). -/
def utf8LenOf (b0 : Nat) : Option Nat :=
  if b0 < 0x80 then some 1
  else if 0xC0 ≤ b0 ∧ b0 ≤ 0xDF then some 2
  else if 0xE0 ≤ b0 ∧ b0 ≤ 0xEF then some 3
  else if 0xF0 ≤ b0 ∧ b0 ≤ 0xF4 then some 4
  else none

/-- Fuel-driven `decodeURIComponent`: literal characters pass through,
an escape sequence is read in full and strictly UTF-8 decoded, and any
malformation yields `none` (the `URIError` of the platform function,
which the caller catches). -/
def pdAux : Nat → List Char → Option (List Char)
  | _, [] => some []
  | 0, _ :: _ => none
  | fuel + 1, c :: rest =>
    if c = '%' then
      match rest with
      | h :: l :: rest2 => do
        let hi ← hexVal? h
        let lo ← hexVal? l
        let n ← utf8LenOf (hi * 16 + lo)
        let (bs, r) ← readEscapes (n - 1) rest2
        match utf8DecodeChar? ((hi * 16 + lo) :: bs) with
        | some (ch, []) => do
          let tail ← pdAux fuel r
          pure (ch :: tail)
        | _ => none
      | _ => none
    else do
      let tail ← pdAux fuel rest
      pure (c :: tail)

/-- `decodeURIComponent`. -/
def percentDecode (s : List Char) : Option (List Char) := pdAux s.length s

/-- Reading back an emitted hexadecimal digit. -/
theorem hexVal?_hexDigit : ∀ n, n < 16 → hexVal? (hexDigit n) = some n := by decide

/-- Reading back a run of emitted escapes recovers the bytes and
leaves the tail untouched. -/
theorem readEscapes_escapeBytes (bs : List Nat) (hb : ∀ b ∈ bs, b < 256)
    (t : List Char) :
    readEscapes bs.length (escapeBytes bs ++ t) = some (bs, t) := by
  induction bs with
  | nil => rfl
  | cons b rest ih =>
    have hblt : b < 256 := hb b (by simp)
    have hrest : ∀ x ∈ rest, x < 256 := fun x hx => hb x (by simp [hx])
    show readEscapes (rest.length + 1)
      ('%' :: hexDigit (b / 16) :: hexDigit (b % 16) :: (escapeBytes rest ++ t)) =
      some (b :: rest, t)
    have hb16 : b / 16 * 16 + b % 16 = b := by omega
    simp [readEscapes, hexVal?_hexDigit (b / 16) (by omega),
      hexVal?_hexDigit (b % 16) (by omega), ih hrest, hb16]

/-- The head byte of an encoded character announces the sequence's
length. -/
theorem utf8LenOf_encodeChar (c : Char) :
    ∃ b0 brest, utf8EncodeChar c = b0 :: brest ∧
      utf8LenOf b0 = some (brest.length + 1) := by
  have hv := char_toNat_valid c
  unfold utf8EncodeChar
  by_cases h1 : c.toNat < 0x80
  · rw [if_pos h1]
    refine ⟨_, _, rfl, ?_⟩
    unfold utf8LenOf
    rw [if_pos h1]
    simp
  · by_cases h2 : c.toNat < 0x800
    · rw [if_neg h1, if_pos h2]
      refine ⟨_, _, rfl, ?_⟩
      unfold utf8LenOf
      rw [if_neg (by omega), if_pos (by omega)]
      simp
    · by_cases h3 : c.toNat < 0x10000
      · rw [if_neg h1, if_neg h2, if_pos h3]
        refine ⟨_, _, rfl, ?_⟩
        unfold utf8LenOf
        rw [if_neg (by omega), if_neg (by omega), if_pos (by omega)]
        simp
      · rw [if_neg h1, if_neg h2, if_neg h3]
        refine ⟨_, _, rfl, ?_⟩
        unfold utf8LenOf
        rw [if_neg (by omega), if_neg (by omega), if_neg (by omega), if_pos (by omega)]
        simp

/-- Every character's percent-encoding is nonempty. -/
theorem percentEncodeChar_length_pos (c : Char) :
    1 ≤ (percentEncodeChar c).length := by
  unfold percentEncodeChar
  split
  · simp
  · obtain ⟨b0, brest, he, -⟩ := utf8LenOf_encodeChar c
    rw [he]
    show 1 ≤ (escapeBytes (b0 :: brest)).length
    simp [escapeBytes]

/-- With enough fuel (one unit per character suffices), decoding an
encoded string recovers it. -/
theorem pdAux_encode (s : List Char) (fuel : Nat)
    (h : (percentEncode s).length ≤ fuel) :
    pdAux fuel (percentEncode s) = some s := by
  induction s generalizing fuel with
  | nil => cases fuel <;> rfl
  | cons c cs ih =>
    have hpec : 1 ≤ (percentEncodeChar c).length := percentEncodeChar_length_pos c
    have hlen : (percentEncode (c :: cs)).length =
        (percentEncodeChar c).length + (percentEncode cs).length := by
      show (percentEncodeChar c ++ percentEncode cs).length = _
      simp
    cases fuel with
    | zero => omega
    | succ f =>
      by_cases hu : isUnreserved c
      · have hc : ¬ c = '%' := by
          intro heq
          rw [heq] at hu
          exact absurd hu (by decide)
        have he : percentEncodeChar c = [c] := by
          unfold percentEncodeChar; rw [if_pos hu]
        show pdAux (f + 1) (percentEncodeChar c ++ percentEncode cs) = some (c :: cs)
        rw [he, List.cons_append, List.nil_append]
        simp [pdAux, hc, ih f (by omega)]
      · have he : percentEncodeChar c = escapeBytes (utf8EncodeChar c) := by
          unfold percentEncodeChar; rw [if_neg hu]
        obtain ⟨b0, brest, hec, hlead⟩ := utf8LenOf_encodeChar c
        have hb0 : b0 < 256 := utf8EncodeChar_lt_256 c b0 (by rw [hec]; simp)
        have hbrest : ∀ b ∈ brest, b < 256 := fun b hbm =>
          utf8EncodeChar_lt_256 c b (by rw [hec]; simp [hbm])
        have hdec : utf8DecodeChar? (b0 :: brest) = some (c, []) := by
          have hd := utf8DecodeChar?_encode c []
          rw [List.append_nil, hec] at hd
          exact hd
        have hb16 : b0 / 16 * 16 + b0 % 16 = b0 := by omega
        show pdAux (f + 1) (percentEncodeChar c ++ percentEncode cs) = some (c :: cs)
        rw [he, hec]
        show pdAux (f + 1) ('%' :: hexDigit (b0 / 16) :: hexDigit (b0 % 16) ::
          (escapeBytes brest ++ percentEncode cs)) = some (c :: cs)
        simp [pdAux, hexVal?_hexDigit (b0 / 16) (by omega),
          hexVal?_hexDigit (b0 % 16) (by omega), hb16, hlead,
          readEscapes_escapeBytes brest hbrest (percentEncode cs),
          hdec, ih f (by omega)]

/-- Percent-encoding round trip: `decodeURIComponent` after
`encodeURIComponent` is the identity. -/
theorem percentDecode_encode (s : List Char) :
    percentDecode (percentEncode s) = some s :=
  pdAux_encode s _ le_rfl

/-! ## Codec: composite round trip (C1) -/

/-- `utf8ToBase64` (lines 25-29): UTF-8 bytes of the string, then
`btoa`. -/
def utf8ToBase64 (s : List Char) : List Char := b64Encode (utf8Encode s)

/-- `base64ToUtf8` (lines 31-35): `atob`, then `TextDecoder`; `none`
is `atob`'s thrown error (`TextDecoder` itself never throws). -/
def base64ToUtf8 (b : List Char) : Option (List Char) :=
  (b64Decode b).map utf8Decode

/-- The full share-token encoder of `generateShareUrl` (line 230):
`encodeURIComponent(utf8ToBase64(text))`. -/
def encodeShareText (s : List Char) : List Char :=
  percentEncode (utf8ToBase64 s)

/-- The full share-token decoder of the load effect (line 77):
`base64ToUtf8(decodeURIComponent(token))`, `none` for any failure. -/
def decodeShareText (t : List Char) : Option (List Char) := do
  let b ← percentDecode t
  base64ToUtf8 b

/-- **C1.** For every Unicode string (sequence of Unicode scalar
values), decoding the encoded share token — percent-decode, then
base64-decode, then UTF-8 decode — recovers the string exactly:
`decode(encode(s)) = s`. -/
theorem decodeShareText_encodeShareText (s : List Char) :
    decodeShareText (encodeShareText s) = some s := by
  unfold decodeShareText encodeShareText utf8ToBase64 base64ToUtf8
  rw [percentDecode_encode]
  show (b64Decode (b64Encode (utf8Encode s))).map utf8Decode = some s
  rw [b64Decode_encode (utf8Encode s) (utf8Encode_lt_256 s)]
  show some (utf8Decode (utf8Encode s)) = some s
  rw [utf8Decode_encode]

/-! ## JSON and the share-link decoder (C8)

The load effect (lines 73-85) takes `window.location.hash`, requires
the `#share=` start, strips it, percent-decodes, base64-decodes, UTF-8
decodes, `JSON.parse`s, and accepts the payload only when
`decoded.name && decoded.days` is truthy; every failure is caught and
ignored (`null` outcome).  JSON values are modelled below; numbers
keep their lexeme (their numeric value is irrelevant here except for
JavaScript truthiness, decided from the mantissa digits — this
coincides with number truthiness except for floating-point underflow
of nonzero literals, which no claim exercises). -/

/-- A parsed JSON value. -/
inductive Json where
  | null : Json
  | bool : Bool → Json
  | num : List Char → Json
  | str : List Char → Json
  | arr : List Json → Json
  | obj : List (List Char × Json) → Json
deriving Repr

/-- JSON insignificant whitespace. -/
def isJsonWs (c : Char) : Bool := c.toNat ∈ [0x20, 0x9, 0xA, 0xD]

/-- Skip insignificant whitespace. -/
def jsonSkipWs (s : List Char) : List Char := s.dropWhile isJsonWs

/-- ASCII decimal digit. -/
def isDigitCh (c : Char) : Bool := 48 ≤ c.toNat ∧ c.toNat ≤ 57

/-- Body of a JSON string literal after the opening quote: processes
escapes (including `\uXXXX` and surrogate pairs; an unpaired surrogate
escape becomes U+FFFD — a modelling choice, since a Unicode scalar
string cannot carry lone surrogates) and stops at the closing
quote. -/
def parseStringBody : Nat → List Char → Option (List Char × List Char)
  | 0, _ => none
  | _ + 1, [] => none
  | _ + 1, '"' :: rest => some ([], rest)
  | f + 1, '\\' :: 'u' :: h1 :: h2 :: h3 :: h4 :: '\\' :: 'u' :: g1 :: g2 :: g3 :: g4 :: rest => do
    let d1 ← hexVal? h1
    let d2 ← hexVal? h2
    let d3 ← hexVal? h3
    let d4 ← hexVal? h4
    let cp := d1 * 4096 + d2 * 256 + d3 * 16 + d4
    if 0xD800 ≤ cp ∧ cp ≤ 0xDBFF then do
      let e1 ← hexVal? g1
      let e2 ← hexVal? g2
      let e3 ← hexVal? g3
      let e4 ← hexVal? g4
      let lo := e1 * 4096 + e2 * 256 + e3 * 16 + e4
      if 0xDC00 ≤ lo ∧ lo ≤ 0xDFFF then do
        let (cs, r) ← parseStringBody f rest
        pure (Char.ofNat (0x10000 + (cp - 0xD800) * 1024 + (lo - 0xDC00)) :: cs, r)
      else do
        let (cs, r) ← parseStringBody f ('\\' :: 'u' :: g1 :: g2 :: g3 :: g4 :: rest)
        pure (Char.ofNat 0xFFFD :: cs, r)
    else if 0xDC00 ≤ cp ∧ cp ≤ 0xDFFF then do
      let (cs, r) ← parseStringBody f ('\\' :: 'u' :: g1 :: g2 :: g3 :: g4 :: rest)
      pure (Char.ofNat 0xFFFD :: cs, r)
    else do
      let (cs, r) ← parseStringBody f ('\\' :: 'u' :: g1 :: g2 :: g3 :: g4 :: rest)
      pure (Char.ofNat cp :: cs, r)
  | f + 1, '\\' :: 'u' :: h1 :: h2 :: h3 :: h4 :: rest => do
    let d1 ← hexVal? h1
    let d2 ← hexVal? h2
    let d3 ← hexVal? h3
    let d4 ← hexVal? h4
    let cp := d1 * 4096 + d2 * 256 + d3 * 16 + d4
    if 0xD800 ≤ cp ∧ cp ≤ 0xDFFF then do
      let (cs, r) ← parseStringBody f rest
      pure (Char.ofNat 0xFFFD :: cs, r)
    else do
      let (cs, r) ← parseStringBody f rest
      pure (Char.ofNat cp :: cs, r)
  | f + 1, '\\' :: e :: rest => do
    let c ← match e with
      | '"' => some '"'
      | '\\' => some '\\'
      | '/' => some '/'
      | 'b' => some (Char.ofNat 8)
      | 'f' => some (Char.ofNat 12)
      | 'n' => some (Char.ofNat 10)
      | 'r' => some (Char.ofNat 13)
      | 't' => some (Char.ofNat 9)
      | _ => none
    let (cs, r) ← parseStringBody f rest
    pure (c :: cs, r)
  | f + 1, c :: rest =>
    if c.toNat < 0x20 then none
    else do
      let (cs, r) ← parseStringBody f rest
      pure (c :: cs, r)

/-- A JSON number starting at the current position, returned as its
lexeme. -/
def parseNumber (s : List Char) : Option (List Char × List Char) := do
  let (negPart, s1) :=
    match s with
    | '-' :: r => (['-'], r)
    | _ => ([], s)
  let (intPart, s2) ← (match s1 with
    | '0' :: r => some (['0'], r)
    | c :: r =>
      if 49 ≤ c.toNat ∧ c.toNat ≤ 57 then
        some (c :: r.takeWhile isDigitCh, r.dropWhile isDigitCh)
      else none
    | [] => none)
  let (fracPart, s3) ← (match s2 with
    | '.' :: r =>
      if (r.takeWhile isDigitCh).isEmpty then none
      else some ('.' :: r.takeWhile isDigitCh, r.dropWhile isDigitCh)
    | _ => some ([], s2))
  let (expPart, s4) ← (match s3 with
    | 'e' :: '+' :: r => (if (r.takeWhile isDigitCh).isEmpty then none
        else some ('e' :: '+' :: r.takeWhile isDigitCh, r.dropWhile isDigitCh))
    | 'e' :: '-' :: r => (if (r.takeWhile isDigitCh).isEmpty then none
        else some ('e' :: '-' :: r.takeWhile isDigitCh, r.dropWhile isDigitCh))
    | 'e' :: r => (if (r.takeWhile isDigitCh).isEmpty then none
        else some ('e' :: r.takeWhile isDigitCh, r.dropWhile isDigitCh))
    | 'E' :: '+' :: r => (if (r.takeWhile isDigitCh).isEmpty then none
        else some ('E' :: '+' :: r.takeWhile isDigitCh, r.dropWhile isDigitCh))
    | 'E' :: '-' :: r => (if (r.takeWhile isDigitCh).isEmpty then none
        else some ('E' :: '-' :: r.takeWhile isDigitCh, r.dropWhile isDigitCh))
    | 'E' :: r => (if (r.takeWhile isDigitCh).isEmpty then none
        else some ('E' :: r.takeWhile isDigitCh, r.dropWhile isDigitCh))
    | _ => some ([], s3))
  pure (negPart ++ intPart ++ fracPart ++ expPart, s4)

mutual

/-- One JSON value (fuel-driven recursive descent; one unit of fuel
per nesting level, so fuel = input length always suffices). -/
def parseVal : Nat → List Char → Option (Json × List Char)
  | 0, _ => none
  | f + 1, s =>
    match jsonSkipWs s with
    | 'n' :: 'u' :: 'l' :: 'l' :: rest => some (Json.null, rest)
    | 't' :: 'r' :: 'u' :: 'e' :: rest => some (Json.bool true, rest)
    | 'f' :: 'a' :: 'l' :: 's' :: 'e' :: rest => some (Json.bool false, rest)
    | '"' :: rest => do
      let (cs, r) ← parseStringBody (rest.length + 1) rest
      pure (Json.str cs, r)
    | '[' :: rest => do
      let (vs, r) ← parseElems f rest
      pure (Json.arr vs, r)
    | '{' :: rest => do
      let (kvs, r) ← parseMembers f rest
      pure (Json.obj kvs, r)
    | s' => do
      let (lex, r) ← parseNumber s'
      pure (Json.num lex, r)

/-- The elements of an array after `[`. -/
def parseElems : Nat → List Char → Option (List Json × List Char)
  | 0, _ => none
  | f + 1, s =>
    match jsonSkipWs s with
    | ']' :: rest => some ([], rest)
    | _ => do
      let (v, r1) ← parseVal f s
      let (vs, r2) ← parseElemsTail f r1
      pure (v :: vs, r2)

/-- `, value`* `]` after the first element of an array. -/
def parseElemsTail : Nat → List Char → Option (List Json × List Char)
  | 0, _ => none
  | f + 1, s =>
    match jsonSkipWs s with
    | ']' :: rest => some ([], rest)
    | ',' :: rest => do
      let (v, r1) ← parseVal f rest
      let (vs, r2) ← parseElemsTail f r1
      pure (v :: vs, r2)
    | _ => none

/-- The members of an object after `\x7b`. -/
def parseMembers : Nat → List Char →
    Option (List (List Char × Json) × List Char)
  | 0, _ => none
  | f + 1, s =>
    match jsonSkipWs s with
    | '}' :: rest => some ([], rest)
    | _ => do
      let (kv, r1) ← parseMember f s
      let (kvs, r2) ← parseMembersTail f r1
      pure (kv :: kvs, r2)

/-- `, member`* `\x7d` after the first member of an object. -/
def parseMembersTail : Nat → List Char →
    Option (List (List Char × Json) × List Char)
  | 0, _ => none
  | f + 1, s =>
    match jsonSkipWs s with
    | '}' :: rest => some ([], rest)
    | ',' :: rest => do
      let (kv, r1) ← parseMember f rest
      let (kvs, r2) ← parseMembersTail f r1
      pure (kv :: kvs, r2)
    | _ => none

/-- One `"key": value` member. -/
def parseMember : Nat → List Char →
    Option ((List Char × Json) × List Char)
  | 0, _ => none
  | f + 1, s =>
    match jsonSkipWs s with
    | '"' :: rest => do
      let (k, r1) ← parseStringBody (rest.length + 1) rest
      match jsonSkipWs r1 with
      | ':' :: r2 => do
        let (v, r3) ← parseVal f r2
        pure ((k, v), r3)
      | _ => none
    | _ => none

end

/-- `JSON.parse`: one value, then end of input. -/
def jsonParse (s : List Char) : Option Json :=
  match parseVal (s.length + 1) s with
  | some (v, rest) => if jsonSkipWs rest = [] then some v else none
  | none => none

/-- Property access `j.key` on a parsed value: objects take the last
occurrence of the key (later JSON members overwrite earlier ones);
anything else yields `none` (`undefined`, or the caught `TypeError` of
`null.key` — the outcome, a `null` result, is the same). -/
def getProp (j : Json) (k : List Char) : Option Json :=
  match j with
  | Json.obj kvs => ((kvs.filter (fun kv => kv.1 = k)).getLast?).map (fun kv => kv.2)
  | _ => none

/-- Is a number lexeme zero (all mantissa digits `0`)? -/
def numIsZero (lex : List Char) : Bool :=
  ((lex.takeWhile (fun c => c ≠ 'e' ∧ c ≠ 'E')).filter isDigitCh).all (fun c => c = '0')

/-- JavaScript truthiness of a parsed JSON value (`undefined`, i.e. a
missing property, is falsy). -/
def jsTruthy : Option Json → Bool
  | none => false
  | some Json.null => false
  | some (Json.bool b) => b
  | some (Json.num lex) => !numIsZero lex
  | some (Json.str s) => !s.isEmpty
  | some (Json.arr _) => true
  | some (Json.obj _) => true

/-- The fragment marker `#share=` (line 74). -/
def shareMark : List Char := "#share=".toList

/-- The property name `name`. -/
def nameKey : List Char := "name".toList

/-- The property name `days`. -/
def daysKey : List Char := "days".toList

/-- The share-link decoder of the load effect (lines 73-85): `none`
models both the silent prefix mismatch and the caught exception /
falsy-guard paths; `some j` is the accepted payload. -/
def decodeShareLink (frag : List Char) : Option Json :=
  if frag.take 7 = shareMark then
    match percentDecode (frag.drop 7) with
    | none => none
    | some tok =>
      match b64Decode tok with
      | none => none
      | some bytes =>
        match jsonParse (utf8Decode bytes) with
        | none => none
        | some j =>
          if jsTruthy (getProp j nameKey) && jsTruthy (getProp j daysKey) then
            some j
          else none
  else none

/-- The property name `locations`. -/
def locationsKey : List Char := "locations".toList

/-- The JSON text `{"name":"a","locations":[]}` (braces escaped). -/
def cexLocText : List Char :=
  "\x7b\"name\":\"a\",\"locations\":[]\x7d".toList

/-- A well-formed share fragment whose payload is `cexLocText`. -/
def cexLocFrag : List Char := shareMark ++ encodeShareText cexLocText

/-- The parsed form of `cexLocText`. -/
def cexLocJson : Json :=
  Json.obj [(nameKey, Json.str ['a']), (locationsKey, Json.arr [])]

/-- The JSON text `{"name":"a","days":[]}` (braces escaped). -/
def goodText : List Char := "\x7b\"name\":\"a\",\"days\":[]\x7d".toList

/-- A well-formed share fragment whose payload is `goodText`. -/
def goodFrag : List Char := shareMark ++ encodeShareText goodText

/-- The parsed form of `goodText`. -/
def goodJson : Json :=
  Json.obj [(nameKey, Json.str ['a']), (daysKey, Json.arr [])]

/-- Counterexample to C8 as stated: a fragment that decodes perfectly
well to an object with a `name` field and a `locations` field (but no
`days`) is rejected — the code requires `decoded.name && decoded.days`
and never accepts a `locations`-only payload. -/
theorem decodeShareLink_ignores_locations_only :
    jsonParse cexLocText = some cexLocJson ∧
      decodeShareLink cexLocFrag = none :=
  ⟨by rfl, by rfl⟩

/-- **C8 (amended).** `decodeShareLink` returns the parsed payload
exactly when the fragment starts with `#share=` and the token
percent-decodes, base64-decodes and JSON-parses, and the parsed value
has a truthy `name` and a truthy `days` property; in every other case
(wrong marker, any decode or parse failure, missing or falsy `name`
or `days` — including payloads carrying only a `locations` field) it
returns `none` rather than raising an error. -/
theorem decodeShareLink_spec (frag : List Char) (j : Json) :
    decodeShareLink frag = some j ↔
      frag.take 7 = shareMark ∧
      (∃ tok bytes, percentDecode (frag.drop 7) = some tok ∧
        b64Decode tok = some bytes ∧ jsonParse (utf8Decode bytes) = some j) ∧
      jsTruthy (getProp j nameKey) = true ∧
      jsTruthy (getProp j daysKey) = true := by
  unfold decodeShareLink
  constructor
  · intro h
    by_cases h7 : frag.take 7 = shareMark
    · rw [if_pos h7] at h
      cases hpd : percentDecode (frag.drop 7) with
      | none => simp [hpd] at h
      | some tok =>
        simp only [hpd] at h
        cases hb : b64Decode tok with
        | none => simp [hb] at h
        | some bytes =>
          simp only [hb] at h
          cases hj : jsonParse (utf8Decode bytes) with
          | none => simp [hj] at h
          | some j' =>
            simp only [hj] at h
            by_cases hc :
                (jsTruthy (getProp j' nameKey) && jsTruthy (getProp j' daysKey)) = true
            · rw [if_pos hc] at h
              cases h
              refine ⟨h7, ⟨tok, bytes, rfl, hb, hj⟩, ?_, ?_⟩
              · exact (Bool.and_eq_true _ _).mp hc |>.1
              · exact (Bool.and_eq_true _ _).mp hc |>.2
            · rw [if_neg hc] at h
              cases h
    · rw [if_neg h7] at h
      cases h
  · rintro ⟨h7, ⟨tok, bytes, hpd, hb, hj⟩, hn, hd⟩
    rw [if_pos h7]
    simp only [hpd, hb, hj]
    rw [if_pos ((Bool.and_eq_true _ _).mpr ⟨hn, hd⟩)]

/-- Witness for the amended C8: a concrete well-formed fragment with a
truthy `name` and `days` decodes to its payload. -/
theorem decodeShareLink_spec_witness :
    decodeShareLink goodFrag = some goodJson :=
  (decodeShareLink_spec goodFrag goodJson).mpr
    ⟨by rfl, ⟨utf8ToBase64 goodText, utf8Encode goodText, by rfl, by rfl, by rfl⟩,
      by rfl, by rfl⟩

end Itinerary
